import Mathlib

/-!
Verification development for the `LModel` bridge of
`dsr/dsr/language_model/language_model.py`: vocabulary alignment between the
search grammar and an external sequence model, probability sharing across
tokens that alias one model id, and recurrent-state threading across an
episode.

Floating-point logits are modelled as values of a generic type `R`
(instantiated with `ℝ` in the theorems), and `np.log` as a function
parameter (instantiated with `Real.log`).  Python's `KeyError` on a dict
lookup of a missing token, and the shape error raised by the inference
runtime on a batch-size mismatch, are modelled by the explicit error type
`LMError`.
-/

set_option autoImplicit false

namespace LangModel

/-- A value of Python's dynamic type as far as the `prob_sharing` flag is
concerned: a boolean or an integer.  Python's `x is True` test succeeds only
on the boolean `True` object. -/
inductive PyVal where
  | pybool (b : Bool)
  | pyint (n : Int)
  deriving DecidableEq, Repr

/-- Errors of the bridge: a missing vocabulary entry at alignment time
(Python raises `KeyError`; the spec names it ConfigurationError), and a
batch-size mismatch against the held recurrent state (StateShapeError). -/
inductive LMError where
  | configurationError (missingToken : String)
  | stateShapeError
  deriving DecidableEq, Repr

/-- `self.lm_token2idx[s]`: a Python dict lookup that raises `KeyError`
(modelled as `configurationError`) when the key is absent. -/
def keyLookup (lm_token2idx : List (String × Nat)) (s : String) :
    Except LMError Nat :=
  match List.lookup s lm_token2idx with
  | some i => Except.ok i
  | none => Except.error (LMError.configurationError s)

/-- One assignment `d[k] = v` on a Python dict represented as an association
list: an existing key keeps its position and gets the new value, a new key is
appended. -/
def pyDictInsert (d : List (Nat × Nat)) (k v : Nat) : List (Nat × Nat) :=
  if (List.lookup k d).isSome then
    d.map (fun p => if p.1 = k then (k, v) else p)
  else
    d ++ [(k, v)]

/-- The dict comprehension `{lm_idx: i for i, lm_idx in enumerate(dsr2lm)}`:
entries are inserted left to right, so a model id occurring several times in
`dsr2lm` keeps the value from its last occurrence. -/
def buildLm2Dsr (dsr2lm : List Nat) : List (Nat × Nat) :=
  dsr2lm.enum.foldl (fun d p => pyDictInsert d p.2 p.1) []

/-- Python's `str.lower()` (`func.lower()` in the source), per character. -/
def pyLower (s : String) : String := String.mk (s.data.map Char.toLower)

/-- `LModel.set_lib_to_lib`: build `dsr2lm` (the alignment table, one model
id per search token: `dsr_n_input_var` copies of the id of `'TERMINAL'`
followed by the id of each function token's lower-cased name) and the
reverse dict `lm2dsr`.  A missing token raises at the first failing lookup,
exactly as the Python list comprehensions do. -/
def set_lib_to_lib (lm_token2idx : List (String × Nat))
    (dsr_function_set : List String) (dsr_n_input_var : Nat) :
    Except LMError (List Nat × List (Nat × Nat)) :=
  match (List.range dsr_n_input_var).mapM
      (fun _ => keyLookup lm_token2idx "TERMINAL") with
  | Except.error e => Except.error e
  | Except.ok termIds =>
      match dsr_function_set.mapM
          (fun func => keyLookup lm_token2idx (pyLower func)) with
      | Except.error e => Except.error e
      | Except.ok funcIds =>
          let dsr2lm := termIds ++ funcIds
          let lm2dsr := buildLm2Dsr dsr2lm
          Except.ok (dsr2lm, lm2dsr)

/-- The fields of an `LModel` instance that the bridge reads and writes.
`next_state` is the held recurrent state (`None` at episode start); the
session and graph handles are passed separately as a `SeqModel`. -/
structure LModel (S : Type) where
  dsr_n_input_var : Nat
  prob_sharing : PyVal
  lm_token2idx : List (String × Nat)
  dsr2lm : List Nat
  lm2dsr : List (Nat × Nat)
  next_state : Option S

/-- Modelled from the spec: the SequenceModelAdapter, i.e. the TensorFlow
session together with `DynRNNLanguageModel`
(`dsr/language_model/model/model_dyn_rnn.py`, not under `src/`).
`stepFresh tokens` runs one step from the model's own default initial state
(used when no state is fed); `stepWarm tokens s` runs one step from the fed
state `s`; both return the logits batch (one row of `|ModelVocabulary|`
logits per batch element) and the new recurrent state.  `stateBatchSize s`
is the batch size encoded in the shape of state `s`. -/
structure SeqModel (R : Type) (S : Type) where
  stateBatchSize : S → Nat
  stepFresh : List Nat → List (List R) × S
  stepWarm : List Nat → S → List (List R) × S

/-- Modelled from the spec: `sess.run([last_state, logits], feed_dict)`.
With no held state the feed omits `initial_state` and the model uses its
default initial state; with a held state whose batch size differs from the
token batch the runtime raises StateShapeError (state tensors are shaped
per batch row and cannot be reused across a different batch size). -/
def sessRun {R S : Type} (m : SeqModel R S) (tokens : List Nat)
    (st : Option S) : Except LMError (List (List R) × S) :=
  match st with
  | none => Except.ok (m.stepFresh tokens)
  | some s =>
      if tokens.length = m.stateBatchSize s then Except.ok (m.stepWarm tokens s)
      else Except.error LMError.stateShapeError

/-- The in-place column update
`logit[:,:,t] = logit[:,:,t] - np.log(dsr_n_input_var)` restricted to one
row: subtract `delta` at position `tId`, leave every other position
unchanged. -/
def correctRow {R : Type} [Sub R] (tId : Nat) (delta : R) (row : List R) :
    List R :=
  row.mapIdx (fun k v => if k = tId then v - delta else v)

/-- `LModel.get_lm_prior._logit_to_prior`.  `logit` has shape
`(1, batch, lm)`.  When `prob_sharing is True` the column of the id of
`'TERMINAL'` is shifted down by `log dsr_n_input_var` (looking that id up
can itself raise `KeyError`); then `prior = logit[0,:,dsr2lm]` transposed,
i.e. row `b`, position `i` of the prior is the (possibly corrected) logit of
batch element `b` at model id `dsr2lm[i]`. -/
def logit_to_prior {R : Type} [Sub R] [Inhabited R] (logNat : Nat → R)
    (lm_token2idx : List (String × Nat)) (prob_sharing : PyVal)
    (dsr_n_input_var : Nat) (dsr2lm : List Nat)
    (logit : List (List (List R))) : Except LMError (List (List R)) :=
  match (if prob_sharing = PyVal.pybool true then
      match keyLookup lm_token2idx "TERMINAL" with
      | Except.error e => Except.error e
      | Except.ok tId =>
          Except.ok (logit.map (fun plane =>
            plane.map (correctRow tId (logNat dsr_n_input_var))))
    else
      Except.ok logit) with
  | Except.error e => Except.error e
  | Except.ok corrected =>
      Except.ok ((corrected.getD 0 []).map (fun row =>
        dsr2lm.map (fun mIdx => row.getD mIdx default)))

/-- `LModel.get_lm_prior`.  `_prep` maps the batch of previous search-token
indices through `dsr2lm`; the session step runs with the held state (or none
at episode start) and its result replaces `self.next_state` before the
logits are turned into a prior; the logits come back with the leading
sequence axis of length 1, `(1, batch, lm)`.  The returned `LModel` carries
the state exactly as the Python object does when the call raises: the state
is already replaced once `sess.run` has returned. -/
def get_lm_prior {R S : Type} [Sub R] [Inhabited R] (m : SeqModel R S)
    (logNat : Nat → R) (self : LModel S) (next_input : List Nat) :
    Except LMError (List (List R)) × LModel S :=
  match sessRun m (next_input.map (fun i => self.dsr2lm.getD i 0))
      self.next_state with
  | Except.error e => (Except.error e, self)
  | Except.ok (lm_logit2d, newState) =>
      (logit_to_prior logNat self.lm_token2idx self.prob_sharing
        self.dsr_n_input_var self.dsr2lm [lm_logit2d],
       { self with next_state := some newState })

/-- `LModel.__init__` (the part the bridge depends on): record the
constructor arguments, build the alignment tables, and start with no held
recurrent state (`self.next_state = None`). -/
def initLModel {S : Type} (lm_token2idx : List (String × Nat))
    (dsr_function_set : List String) (dsr_n_input_var : Nat)
    (prob_sharing : PyVal) : Except LMError (LModel S) :=
  match set_lib_to_lib lm_token2idx dsr_function_set dsr_n_input_var with
  | Except.error e => Except.error e
  | Except.ok tables =>
      Except.ok
        { dsr_n_input_var := dsr_n_input_var
          prob_sharing := prob_sharing
          lm_token2idx := lm_token2idx
          dsr2lm := tables.1
          lm2dsr := tables.2
          next_state := none }

/-- Modelled from the spec: `resetEpisode()` / `StateManager.reset`.  The
source holds the episode state in the mutable field `next_state` and has no
reset method; per the spec, resetting discards the held RecurrentState and
returns the holder to `EMPTY`. -/
def resetEpisode {S : Type} (self : LModel S) : LModel S :=
  { self with next_state := none }

/-- A small concrete adapter instance used by the witnesses: each step
returns one logits row per batch element and a state recording the batch
size. -/
def testModel : SeqModel ℚ Nat :=
  { stateBatchSize := fun s => s
    stepFresh := fun tokens => (tokens.map (fun _ => [1, 2, 1/2]), tokens.length)
    stepWarm := fun tokens _ =>
      (tokens.map (fun t => [(t : ℚ), 2, 3]), tokens.length) }

/-- A small concrete real-valued adapter instance used by the witnesses of
the prior-computation theorems: fresh logits row `[7, 5, 3]` per batch
element, warm logits row `[4, 2, 3]`, state = batch size. -/
def testModelR : SeqModel ℝ Nat :=
  { stateBatchSize := fun s => s
    stepFresh := fun tokens => (tokens.map (fun _ => [7, 5, 3]), tokens.length)
    stepWarm := fun tokens _ =>
      (tokens.map (fun _ => [4, 2, 3]), tokens.length) }

/-- A small concrete constructed instance used by the witnesses: one input
variable and the function set `["add"]` over the vocabulary
`{TERMINAL ↦ 0, add ↦ 1}`. -/
def testLModel : LModel Nat :=
  { dsr_n_input_var := 1
    prob_sharing := PyVal.pybool true
    lm_token2idx := [("TERMINAL", 0), ("add", 1)]
    dsr2lm := [0, 1]
    lm2dsr := [(0, 0), (1, 1)]
    next_state := none }

/-! ### Lemmas about vocabulary lookups and the alignment construction -/

theorem except_bind_ok {ε α β : Type} (a : α) (f : α → Except ε β) :
    (Except.ok a >>= f) = f a := rfl

theorem except_bind_error {ε α β : Type} (e : ε) (f : α → Except ε β) :
    ((Except.error e : Except ε α) >>= f) = Except.error e := rfl

theorem except_map_ok {ε α β : Type} (a : α) (f : α → β) :
    (f <$> (Except.ok a : Except ε α)) = Except.ok (f a) := rfl

theorem except_map_error {ε α β : Type} (e : ε) (f : α → β) :
    (f <$> (Except.error e : Except ε α)) = Except.error e := rfl

theorem keyLookup_ok_iff (v : List (String × Nat)) (s : String) (i : Nat) :
    keyLookup v s = Except.ok i ↔ List.lookup s v = some i := by
  unfold keyLookup
  cases h : List.lookup s v <;> simp

theorem keyLookup_error_iff (v : List (String × Nat)) (s : String)
    (e : LMError) :
    keyLookup v s = Except.error e ↔
      List.lookup s v = none ∧ e = LMError.configurationError s := by
  unfold keyLookup
  cases h : List.lookup s v <;> simp [eq_comm]

theorem mapM_const_ok {α : Type} (v : List (String × Nat)) (s : String)
    (i : Nat) (h : List.lookup s v = some i) (l : List α) :
    l.mapM (fun _ => keyLookup v s) = Except.ok (l.map (fun _ => i)) := by
  induction l with
  | nil => rfl
  | cons a t ih =>
      rw [List.mapM_cons, ih, (keyLookup_ok_iff v s i).2 h]
      rfl

theorem mapM_keyLookup_ok {α : Type} (v : List (String × Nat))
    (g : α → String) :
    ∀ (l : List α) (ids : List Nat),
      l.mapM (fun a => keyLookup v (g a)) = Except.ok ids →
      ids.length = l.length ∧
        ∀ (j : Nat) (a : α), l[j]? = some a → List.lookup (g a) v = ids[j]? := by
  intro l
  induction l with
  | nil =>
      intro ids h
      rw [List.mapM_nil] at h
      obtain rfl : ([] : List Nat) = ids := by
        simpa [pure, Except.pure] using h
      exact ⟨rfl, by intro j a hj; simp at hj⟩
  | cons b t ih =>
      intro ids h
      rw [List.mapM_cons] at h
      cases hk : keyLookup v (g b) with
      | error e =>
          rw [hk, except_bind_error] at h
          exact absurd h (by simp)
      | ok y =>
          rw [hk, except_bind_ok] at h
          cases ht : t.mapM (fun a => keyLookup v (g a)) with
          | error e =>
              rw [ht, except_bind_error] at h
              exact absurd h (by simp)
          | ok ys =>
              rw [ht, except_bind_ok] at h
              obtain rfl : y :: ys = ids := by
                simpa [pure, Except.pure] using h
              obtain ⟨hlen, hpt⟩ := ih ys ht
              refine ⟨by simp [hlen], ?_⟩
              intro j a hj
              cases j with
              | zero =>
                  obtain rfl : b = a := by simpa using hj
                  simpa using (keyLookup_ok_iff v (g b) y).1 hk
              | succ j =>
                  simp only [List.getElem?_cons_succ] at hj ⊢
                  exact hpt j a hj

theorem mapM_keyLookup_error {α : Type} (v : List (String × Nat))
    (g : α → String) :
    ∀ (l : List α) (e : LMError),
      l.mapM (fun a => keyLookup v (g a)) = Except.error e →
      ∃ a ∈ l, e = LMError.configurationError (g a) ∧
        List.lookup (g a) v = none := by
  intro l
  induction l with
  | nil =>
      intro e h
      rw [List.mapM_nil] at h
      exact absurd h (by simp [pure, Except.pure])
  | cons b t ih =>
      intro e h
      rw [List.mapM_cons] at h
      cases hk : keyLookup v (g b) with
      | error e₁ =>
          rw [hk, except_bind_error] at h
          have he : e = e₁ := by simpa [eq_comm] using h
          subst he
          obtain ⟨h1, h2⟩ := (keyLookup_error_iff v (g b) e).1 hk
          exact ⟨b, List.mem_cons_self b t, h2, h1⟩
      | ok y =>
          rw [hk, except_bind_ok] at h
          cases ht : t.mapM (fun a => keyLookup v (g a)) with
          | error e₁ =>
              rw [ht, except_bind_error] at h
              have he : e = e₁ := by simpa [eq_comm] using h
              subst he
              obtain ⟨a, ha, h2, h3⟩ := ih e ht
              exact ⟨a, List.mem_cons_of_mem b ha, h2, h3⟩
          | ok ys =>
              rw [ht, except_bind_ok] at h
              exact absurd h (by simp [pure, Except.pure])

theorem mapM_keyLookup_total {α : Type} (v : List (String × Nat))
    (g : α → String) :
    ∀ (l : List α), (∀ a ∈ l, (List.lookup (g a) v).isSome) →
      ∃ ids, l.mapM (fun a => keyLookup v (g a)) = Except.ok ids := by
  intro l
  induction l with
  | nil => intro _; exact ⟨[], rfl⟩
  | cons b t ih =>
      intro hall
      obtain ⟨y, hy⟩ := Option.isSome_iff_exists.1 (hall b (List.mem_cons_self b t))
      obtain ⟨ys, hys⟩ := ih (fun a ha => hall a (List.mem_cons_of_mem b ha))
      refine ⟨y :: ys, ?_⟩
      rw [List.mapM_cons, hys, (keyLookup_ok_iff v (g b) y).2 hy]
      rfl

theorem lookup_map_replace (d : List (Nat × Nat)) (k v : Nat) :
    List.lookup k (d.map (fun p => if p.1 = k then (k, v) else p)) =
      (List.lookup k d).map (fun _ => v) := by
  induction d with
  | nil => rfl
  | cons p t ih =>
      obtain ⟨pk, pv⟩ := p
      by_cases hp : pk = k
      · subst hp
        simp [List.lookup_cons]
      · have hk : k ≠ pk := fun h => hp h.symm
        simp [hp, List.lookup_cons, beq_eq_false_iff_ne.mpr hk, ih]

theorem lookup_map_replace_ne (d : List (Nat × Nat)) (k v k' : Nat)
    (h : k' ≠ k) :
    List.lookup k' (d.map (fun p => if p.1 = k then (k, v) else p)) =
      List.lookup k' d := by
  induction d with
  | nil => rfl
  | cons p t ih =>
      obtain ⟨pk, pv⟩ := p
      by_cases hp : pk = k
      · subst hp
        simp [List.lookup_cons, beq_eq_false_iff_ne.mpr h, ih]
      · by_cases hq : k' = pk
        · subst hq
          simp [hp, List.lookup_cons]
        · simp [hp, List.lookup_cons, beq_eq_false_iff_ne.mpr hq, ih]

theorem lookup_append_pair (t : List (Nat × Nat)) (k v k' : Nat) :
    List.lookup k' (t ++ [(k, v)]) =
      match List.lookup k' t with
      | some w => some w
      | none => if k' = k then some v else none := by
  induction t with
  | nil =>
      by_cases h : k' = k
      · subst h; simp [List.lookup_cons]
      · simp [List.lookup_cons, beq_eq_false_iff_ne.mpr h, h]
  | cons p t ih =>
      obtain ⟨pk, pv⟩ := p
      by_cases h : k' = pk
      · subst h; simp [List.lookup_cons]
      · simp [List.lookup_cons, beq_eq_false_iff_ne.mpr h, ih]

theorem lookup_pyDictInsert_self (d : List (Nat × Nat)) (k v : Nat) :
    List.lookup k (pyDictInsert d k v) = some v := by
  unfold pyDictInsert
  by_cases h : (List.lookup k d).isSome
  · obtain ⟨w, hw⟩ := Option.isSome_iff_exists.1 h
    simp [h, lookup_map_replace, hw]
  · have hn : List.lookup k d = none := Option.not_isSome_iff_eq_none.1 h
    simp [h, lookup_append_pair, hn]

theorem lookup_pyDictInsert_ne (d : List (Nat × Nat)) (k v k' : Nat)
    (h : k' ≠ k) :
    List.lookup k' (pyDictInsert d k v) = List.lookup k' d := by
  unfold pyDictInsert
  by_cases hs : (List.lookup k d).isSome
  · simp only [hs, if_true]
    exact lookup_map_replace_ne d k v k' h
  · rw [if_neg hs, lookup_append_pair]
    cases hk : List.lookup k' d with
    | some w => rfl
    | none => simp [h]

theorem buildLm2Dsr_append (as : List Nat) (a : Nat) :
    buildLm2Dsr (as ++ [a]) = pyDictInsert (buildLm2Dsr as) a as.length := by
  unfold buildLm2Dsr
  rw [List.enum_append, List.foldl_append]
  rfl

theorem lookup_buildLm2Dsr (l : List Nat) (m j : Nat) :
    List.lookup m (buildLm2Dsr l) = some j ↔
      (l[j]? = some m ∧ ∀ i : Nat, l[i]? = some m → i ≤ j) := by
  induction l using List.reverseRecOn with
  | nil => simp [buildLm2Dsr]
  | append_singleton as a ih =>
      rw [buildLm2Dsr_append]
      by_cases hm : m = a
      · subst hm
        rw [lookup_pyDictInsert_self]
        constructor
        · intro h
          obtain rfl : as.length = j := by simpa using h
          refine ⟨List.getElem?_concat_length as m, ?_⟩
          intro i hi
          have hlt := (List.getElem?_eq_some.1 hi).1
          simp only [List.length_append, List.length_singleton] at hlt
          omega
        · rintro ⟨h1, h2⟩
          have hj1 := (List.getElem?_eq_some.1 h1).1
          simp only [List.length_append, List.length_singleton] at hj1
          have hj2 : as.length ≤ j := h2 as.length (List.getElem?_concat_length as m)
          have : j = as.length := by omega
          simp [this]
      · rw [lookup_pyDictInsert_ne _ _ _ _ hm, ih]
        have hlast : (as ++ [a])[as.length]? = some a := List.getElem?_concat_length as a
        constructor
        · rintro ⟨h1, h2⟩
          have hj := (List.getElem?_eq_some.1 h1).1
          refine ⟨?_, ?_⟩
          · rw [List.getElem?_append]
            simp [hj, h1]
          · intro i hi
            rcases Nat.lt_or_ge i as.length with hilt | hige
            · apply h2
              rw [List.getElem?_append] at hi
              simpa [hilt] using hi
            · exfalso
              have hile : i < as.length + 1 := by
                have := (List.getElem?_eq_some.1 hi).1
                simpa [List.length_append] using this
              have : i = as.length := by omega
              subst this
              rw [hlast] at hi
              exact hm (by simpa [eq_comm] using hi)
        · rintro ⟨h1, h2⟩
          have hj := (List.getElem?_eq_some.1 h1).1
          simp only [List.length_append, List.length_singleton] at hj
          have hjlt : j < as.length := by
            rcases Nat.lt_or_ge j as.length with h | h
            · exact h
            · exfalso
              have : j = as.length := by omega
              subst this
              rw [hlast] at h1
              exact hm (by simpa [eq_comm] using h1)
          refine ⟨?_, ?_⟩
          · rw [List.getElem?_append] at h1
            simpa [hjlt] using h1
          · intro i hi
            apply h2
            rw [List.getElem?_append]
            have hilt : i < as.length := (List.getElem?_eq_some.1 hi).1
            simp [hilt, hi]

theorem mapM_keyLookup_mem {α : Type} (v : List (String × Nat))
    (g : α → String) (l : List α) (ids : List Nat)
    (h : l.mapM (fun a => keyLookup v (g a)) = Except.ok ids) :
    ∀ y ∈ ids, ∃ a ∈ l, List.lookup (g a) v = some y := by
  intro y hy
  obtain ⟨hlen, hpt⟩ := mapM_keyLookup_ok v g l ids h
  obtain ⟨j, hj⟩ := List.mem_iff_getElem?.1 hy
  have hjl : j < l.length := by
    have := (List.getElem?_eq_some.1 hj).1
    omega
  obtain ⟨a, ha⟩ : ∃ a, l[j]? = some a :=
    ⟨l[j], List.getElem?_eq_some.2 ⟨hjl, rfl⟩⟩
  refine ⟨a, List.mem_iff_getElem?.2 ⟨j, ha⟩, ?_⟩
  rw [hpt j a ha, hj]

theorem set_lib_to_lib_ok_iff (v : List (String × Nat)) (fs : List String)
    (n : Nat) (d : List Nat) (r : List (Nat × Nat)) :
    set_lib_to_lib v fs n = Except.ok (d, r) ↔
      ∃ ts us,
        (List.range n).mapM (fun _ => keyLookup v "TERMINAL") = Except.ok ts ∧
        fs.mapM (fun func => keyLookup v (pyLower func)) = Except.ok us ∧
        d = ts ++ us ∧ r = buildLm2Dsr (ts ++ us) := by
  unfold set_lib_to_lib
  cases hA : (List.range n).mapM (fun _ => keyLookup v "TERMINAL") with
  | error e =>
      constructor
      · intro h; exact absurd h (by simp)
      · rintro ⟨ts', us', hts', hus', rfl, rfl⟩
        exact absurd hts' (by simp)
  | ok ts =>
      cases hB : fs.mapM (fun func => keyLookup v (pyLower func)) with
      | error e =>
          constructor
          · intro h; exact absurd h (by simp)
          · rintro ⟨ts', us', hts', hus', rfl, rfl⟩
            exact absurd hus' (by simp)
      | ok us =>
          constructor
          · intro h
            obtain ⟨h1, h2⟩ : ts ++ us = d ∧ buildLm2Dsr (ts ++ us) = r := by
              simpa [Prod.ext_iff] using h
            exact ⟨ts, us, rfl, rfl, h1.symm, h2.symm⟩
          · rintro ⟨ts', us', hts', hus', rfl, rfl⟩
            obtain rfl : ts = ts' := by simpa using hts'
            obtain rfl : us = us' := by simpa using hus'
            rfl

theorem set_lib_to_lib_error_iff (v : List (String × Nat)) (fs : List String)
    (n : Nat) (e : LMError) :
    set_lib_to_lib v fs n = Except.error e ↔
      (List.range n).mapM (fun _ => keyLookup v "TERMINAL") = Except.error e ∨
      (∃ ts,
        (List.range n).mapM (fun _ => keyLookup v "TERMINAL") = Except.ok ts ∧
        fs.mapM (fun func => keyLookup v (pyLower func)) = Except.error e) := by
  unfold set_lib_to_lib
  cases hA : (List.range n).mapM (fun _ => keyLookup v "TERMINAL") with
  | error e₁ =>
      constructor
      · intro h
        exact Or.inl (by simpa [eq_comm] using h)
      · rintro (h | ⟨ts, hts, hus⟩)
        · simpa [eq_comm] using h
        · exact absurd hts (by simp)
  | ok ts =>
      cases hB : fs.mapM (fun func => keyLookup v (pyLower func)) with
      | error e₁ =>
          constructor
          · intro h
            exact Or.inr ⟨ts, rfl, by simpa [eq_comm] using h⟩
          · rintro (h | ⟨ts', hts', hus'⟩)
            · exact absurd h (by simp)
            · simpa [eq_comm] using hus'
      | ok us =>
          constructor
          · intro h; exact absurd h (by simp)
          · rintro (h | ⟨ts', hts', hus'⟩)
            · exact absurd h (by simp)
            · exact absurd hus' (by simp)

/-! ### Lemmas about the prior computation -/

theorem logit_to_prior_nosharing {R : Type} [Sub R] [Inhabited R]
    (logNat : Nat → R) (v : List (String × Nat)) (ps : PyVal) (n : Nat)
    (d : List Nat) (lg : List (List (List R)))
    (hps : ps ≠ PyVal.pybool true) :
    logit_to_prior logNat v ps n d lg =
      Except.ok ((lg.getD 0 []).map (fun row =>
        d.map (fun mIdx => row.getD mIdx default))) := by
  unfold logit_to_prior
  rw [if_neg hps]

theorem logit_to_prior_sharing {R : Type} [Sub R] [Inhabited R]
    (logNat : Nat → R) (v : List (String × Nat)) (n : Nat)
    (d : List Nat) (lg : List (List (List R))) (tId : Nat)
    (ht : List.lookup "TERMINAL" v = some tId) :
    logit_to_prior logNat v (PyVal.pybool true) n d lg =
      Except.ok (((lg.map (fun plane =>
          plane.map (correctRow tId (logNat n)))).getD 0 []).map (fun row =>
        d.map (fun mIdx => row.getD mIdx default))) := by
  unfold logit_to_prior
  rw [if_pos rfl, (keyLookup_ok_iff v "TERMINAL" tId).2 ht]

theorem correctRow_getD_self {R : Type} [Sub R] [Inhabited R] (tId : Nat)
    (delta : R) (row : List R) (h : tId < row.length) :
    (correctRow tId delta row).getD tId default =
      row.getD tId default - delta := by
  unfold correctRow
  rw [List.getD_eq_getElem?_getD, List.getElem?_mapIdx,
      List.getElem?_eq_getElem h, List.getD_eq_getElem?_getD,
      List.getElem?_eq_getElem h]
  simp

theorem correctRow_getD_ne {R : Type} [Sub R] [Inhabited R] (tId : Nat)
    (delta : R) (row : List R) (k : Nat) (hk : k ≠ tId) :
    (correctRow tId delta row).getD k default = row.getD k default := by
  unfold correctRow
  rw [List.getD_eq_getElem?_getD, List.getElem?_mapIdx,
      List.getD_eq_getElem?_getD]
  cases row[k]? with
  | none => rfl
  | some w => simp [hk]

theorem correctRow_zero (tId : Nat) (row : List ℝ) :
    correctRow tId (0 : ℝ) row = row := by
  apply List.ext_getElem?
  intro k
  unfold correctRow
  rw [List.getElem?_mapIdx]
  cases row[k]? with
  | none => rfl
  | some w => simp

theorem map_correctRow_zero (tId : Nat) (plane : List (List ℝ)) :
    plane.map (correctRow tId (0 : ℝ)) = plane := by
  conv_rhs => rw [← List.map_id plane]
  exact List.map_congr_left (fun row _ => correctRow_zero tId row)

theorem getD_map_lt {α β : Type} [Inhabited β] (L : List α) (dflt : α)
    (f : α → β) (i : Nat) (hi : i < L.length) :
    (L.map f).getD i default = f (L.getD i dflt) := by
  rw [List.getD_eq_getElem?_getD, List.getElem?_map,
      List.getElem?_eq_getElem hi, List.getD_eq_getElem?_getD,
      List.getElem?_eq_getElem hi]
  rfl

theorem set_lib_to_lib_length (v : List (String × Nat)) (fs : List String)
    (n : Nat) (d : List Nat) (r : List (Nat × Nat))
    (h : set_lib_to_lib v fs n = Except.ok (d, r)) :
    d.length = n + fs.length := by
  obtain ⟨ts, us, hts, hus, rfl, rfl⟩ := (set_lib_to_lib_ok_iff v fs n _ _).1 h
  have h1 := (mapM_keyLookup_ok v (fun _ => "TERMINAL") (List.range n) ts hts).1
  have h2 := (mapM_keyLookup_ok v pyLower fs us hus).1
  rw [List.length_append, h1, h2, List.length_range]

/-! ### Claim theorems -/

/-- C5: building the alignment fails with a ConfigurationError whenever some
SearchVocabulary token has no entry in ModelVocabulary (the raised error
always names a token that is absent, so no placeholder or fallback id is
ever substituted), and construction succeeds exactly when every needed
entry is present: `'TERMINAL'` as soon as there is at least one input
variable, and the lower-cased name of every function token. -/
theorem alignment_totality (v : List (String × Nat)) (fs : List String)
    (n : Nat) :
    ((∃ dr, set_lib_to_lib v fs n = Except.ok dr) ↔
      ((0 < n → (List.lookup "TERMINAL" v).isSome) ∧
        ∀ f ∈ fs, (List.lookup (pyLower f) v).isSome)) ∧
    (∀ e, set_lib_to_lib v fs n = Except.error e →
      ∃ s, e = LMError.configurationError s ∧ List.lookup s v = none) := by
  refine ⟨⟨?_, ?_⟩, ?_⟩
  · rintro ⟨⟨d, r⟩, h⟩
    obtain ⟨ts, us, hts, hus, rfl, rfl⟩ := (set_lib_to_lib_ok_iff v fs n _ _).1 h
    constructor
    · intro hn
      obtain ⟨hlen, hpt⟩ :=
        mapM_keyLookup_ok v (fun _ => "TERMINAL") (List.range n) ts hts
      rw [hpt 0 0 (List.getElem?_range hn)]
      have h0 : 0 < ts.length := by
        rw [hlen, List.length_range]; exact hn
      exact Option.isSome_iff_exists.2 ⟨ts[0], List.getElem?_eq_some.2 ⟨h0, rfl⟩⟩
    · intro f hf
      obtain ⟨j, hj⟩ := List.mem_iff_getElem?.1 hf
      obtain ⟨hlen, hpt⟩ := mapM_keyLookup_ok v pyLower fs us hus
      rw [hpt j f hj]
      have hju : j < us.length := by
        have := (List.getElem?_eq_some.1 hj).1
        omega
      exact Option.isSome_iff_exists.2 ⟨us[j], List.getElem?_eq_some.2 ⟨hju, rfl⟩⟩
  · rintro ⟨h1, h2⟩
    obtain ⟨ts, hts⟩ := mapM_keyLookup_total v (fun _ => "TERMINAL")
      (List.range n) (fun a ha => h1 (Nat.pos_of_ne_zero (by
        intro hn
        subst hn
        simp at ha)))
    obtain ⟨us, hus⟩ := mapM_keyLookup_total v pyLower fs h2
    exact ⟨(ts ++ us, buildLm2Dsr (ts ++ us)),
      (set_lib_to_lib_ok_iff v fs n _ _).2 ⟨ts, us, hts, hus, rfl, rfl⟩⟩
  · intro e he
    rcases (set_lib_to_lib_error_iff v fs n e).1 he with h | ⟨ts, hts, hus⟩
    · obtain ⟨a, ha, h2, h3⟩ :=
        mapM_keyLookup_error v (fun _ => "TERMINAL") (List.range n) e h
      exact ⟨"TERMINAL", h2, h3⟩
    · obtain ⟨a, ha, h2, h3⟩ := mapM_keyLookup_error v pyLower fs e hus
      exact ⟨pyLower a, h2, h3⟩

/-- C10: the reverse table `lm2dsr` maps a model id to the greatest search
index aligned to it, hence it inverts `dsr2lm` exactly at indices whose
model id is unshared, and resolves every shared id to its last member. -/
theorem lm2dsr_last_index (v : List (String × Nat)) (fs : List String)
    (n : Nat) (d : List Nat) (r : List (Nat × Nat))
    (h : set_lib_to_lib v fs n = Except.ok (d, r)) :
    (∀ mi j : Nat, List.lookup mi r = some j ↔
      (d[j]? = some mi ∧ ∀ i : Nat, d[i]? = some mi → i ≤ j)) ∧
    (∀ i mi : Nat, d[i]? = some mi →
      (∀ i' : Nat, d[i']? = some mi → i' = i) →
      List.lookup mi r = some i) := by
  obtain ⟨ts, us, hts, hus, rfl, rfl⟩ := (set_lib_to_lib_ok_iff v fs n _ _).1 h
  refine ⟨fun mi j => lookup_buildLm2Dsr (ts ++ us) mi j, ?_⟩
  intro i mi hi huniq
  exact (lookup_buildLm2Dsr (ts ++ us) mi i).2
    ⟨hi, fun i' hi' => Nat.le_of_eq (huniq i' hi')⟩

/-- C10 witness: a concrete construction with two input variables sharing
the TERMINAL id; the shared id resolves to its last member (index 1) and
the unshared id of `add` inverts to its unique index 2. -/
theorem lm2dsr_last_index_witness :
    set_lib_to_lib [("TERMINAL", 0), ("add", 1)] ["add"] 2 =
      Except.ok ([0, 0, 1], [(0, 1), (1, 2)]) ∧
    List.lookup 0 [(0, 1), (1, 2)] = some 1 ∧
    List.lookup 1 [(0, 1), (1, 2)] = some 2 := by
  have h : set_lib_to_lib [("TERMINAL", 0), ("add", 1)] ["add"] 2 =
      Except.ok ([0, 0, 1], [(0, 1), (1, 2)]) := by rfl
  have hmain := lm2dsr_last_index [("TERMINAL", 0), ("add", 1)] ["add"] 2
    [0, 0, 1] [(0, 1), (1, 2)] h
  refine ⟨h, ?_, ?_⟩
  · refine (hmain.1 0 1).2 ⟨by decide, ?_⟩
    intro i hi
    rcases i with _ | _ | _ | i
    · omega
    · omega
    · simp at hi
    · simp at hi
  · refine hmain.2 2 1 (by decide) ?_
    intro i' hi'
    rcases i' with _ | _ | _ | i'
    · simp at hi'
    · simp at hi'
    · rfl
    · simp at hi'

theorem sessRun_none {R S : Type} (m : SeqModel R S) (tokens : List Nat) :
    sessRun m tokens none = Except.ok (m.stepFresh tokens) := rfl

theorem sessRun_some {R S : Type} (m : SeqModel R S) (tokens : List Nat)
    (s : S) :
    sessRun m tokens (some s) =
      if tokens.length = m.stateBatchSize s then
        Except.ok (m.stepWarm tokens s)
      else Except.error LMError.stateShapeError := rfl

theorem initLModel_ok_fields {S : Type} (v : List (String × Nat))
    (fs : List String) (n : Nat) (ps : PyVal) (self0 : LModel S)
    (h0 : initLModel v fs n ps = Except.ok self0) :
    self0.next_state = none ∧ self0.dsr_n_input_var = n ∧
    self0.prob_sharing = ps ∧ self0.lm_token2idx = v ∧
    set_lib_to_lib v fs n = Except.ok (self0.dsr2lm, self0.lm2dsr) := by
  unfold initLModel at h0
  cases hsl : set_lib_to_lib v fs n with
  | error e =>
      rw [hsl] at h0
      exact absurd h0 (by simp)
  | ok tables =>
      rw [hsl] at h0
      obtain ⟨d, r⟩ := tables
      obtain rfl : _ = self0 := by simpa using h0
      exact ⟨rfl, rfl, rfl, rfl, rfl⟩

theorem logit_to_prior_error_form {R : Type} [Sub R] [Inhabited R]
    (logNat : Nat → R) (v : List (String × Nat)) (ps : PyVal) (n : Nat)
    (d : List Nat) (lg : List (List (List R))) (e : LMError)
    (h : logit_to_prior logNat v ps n d lg = Except.error e) :
    ∃ s, e = LMError.configurationError s ∧ List.lookup s v = none := by
  unfold logit_to_prior at h
  by_cases hps : ps = PyVal.pybool true
  · rw [if_pos hps] at h
    cases hk : keyLookup v "TERMINAL" with
    | error e₁ =>
        rw [hk] at h
        have he : e = e₁ := by simpa [eq_comm] using h
        subst he
        obtain ⟨h1, h2⟩ := (keyLookup_error_iff v "TERMINAL" e).1 hk
        exact ⟨"TERMINAL", h2, h1⟩
    | ok tId =>
        rw [hk] at h
        exact absurd h (by simp)
  · rw [if_neg hps] at h
    exact absurd h (by simp)

theorem get_lm_prior_ok {R S : Type} [Sub R] [Inhabited R]
    (m : SeqModel R S) (logNat : Nat → R) (self : LModel S)
    (next_input : List Nat) (lg : List (List R)) (ns : S)
    (hrun : sessRun m (next_input.map (fun i => self.dsr2lm.getD i 0))
      self.next_state = Except.ok (lg, ns)) :
    get_lm_prior m logNat self next_input =
      (logit_to_prior logNat self.lm_token2idx self.prob_sharing
        self.dsr_n_input_var self.dsr2lm [lg],
       { self with next_state := some ns }) := by
  unfold get_lm_prior
  rw [hrun]

theorem get_lm_prior_raises {R S : Type} [Sub R] [Inhabited R]
    (m : SeqModel R S) (logNat : Nat → R) (self : LModel S)
    (next_input : List Nat) (e : LMError)
    (hrun : sessRun m (next_input.map (fun i => self.dsr2lm.getD i 0))
      self.next_state = Except.error e) :
    get_lm_prior m logNat self next_input = (Except.error e, self) := by
  unfold get_lm_prior
  rw [hrun]

theorem get_lm_prior_dsr2lm {R S : Type} [Sub R] [Inhabited R]
    (m : SeqModel R S) (logNat : Nat → R) (self : LModel S) (x : List Nat) :
    ((get_lm_prior m logNat self x).2).dsr2lm = self.dsr2lm := by
  unfold get_lm_prior
  cases sessRun m (List.map (fun i => self.dsr2lm.getD i 0) x)
      self.next_state with
  | error e => rfl
  | ok p =>
      obtain ⟨lg, ns⟩ := p
      rfl

/-- C4: the alignment table built at construction has length
`n + |fs| = |SearchVocabulary|`; the first `n` entries (the input-variable
tokens) all alias the single id of `'TERMINAL'`, forming the TerminalGroup;
entry `n + j` is the id found for function token `j`'s case-normalized
(lower-cased) name; every entry is a defined ModelVocabulary id; and the
table is built once and never mutated by any later `get_lm_prior` call. -/
theorem alignment_table_invariants {R S : Type} [Sub R] [Inhabited R]
    (v : List (String × Nat)) (fs : List String) (n : Nat)
    (d : List Nat) (r : List (Nat × Nat)) (tId : Nat)
    (h : set_lib_to_lib v fs n = Except.ok (d, r))
    (ht : List.lookup "TERMINAL" v = some tId) :
    d.length = n + fs.length ∧
    (∀ i : Nat, i < n → d[i]? = some tId) ∧
    (∀ (j : Nat) (f : String), fs[j]? = some f →
      d[n + j]? = List.lookup (pyLower f) v) ∧
    (∀ x ∈ d, ∃ s, List.lookup s v = some x) ∧
    (∀ (m : SeqModel R S) (logNat : Nat → R) (self : LModel S)
      (x : List Nat), self.dsr2lm = d →
      ((get_lm_prior m logNat self x).2).dsr2lm = d) := by
  obtain ⟨ts, us, hts, hus, rfl, rfl⟩ := (set_lib_to_lib_ok_iff v fs n _ _).1 h
  obtain rfl : (List.range n).map (fun _ => tId) = ts := by
    rw [mapM_const_ok v "TERMINAL" tId ht (List.range n)] at hts
    simpa using hts
  obtain ⟨hlen, hpt⟩ := mapM_keyLookup_ok v pyLower fs us hus
  have hlen' : ((List.range n).map (fun _ => tId)).length = n := by
    rw [List.length_map, List.length_range]
  refine ⟨?_, ?_, ?_, ?_, ?_⟩
  · simp [List.length_append, hlen', hlen]
  · intro i hi
    rw [List.getElem?_append]
    simp only [hlen', hi, if_true]
    rw [List.getElem?_map, List.getElem?_range hi]
    rfl
  · intro j f hj
    rw [List.getElem?_append]
    simp only [hlen']
    have : ¬(n + j < n) := by omega
    simp only [this, if_false]
    have : n + j - n = j := by omega
    rw [this, ← hpt j f hj]
  · intro x hx
    rcases List.mem_append.1 hx with hx | hx
    · obtain ⟨a, _, rfl⟩ := List.mem_map.1 hx
      exact ⟨"TERMINAL", ht⟩
    · obtain ⟨a, _, hla⟩ := mapM_keyLookup_mem v pyLower fs us hus x hx
      exact ⟨pyLower a, hla⟩
  · intro m logNat self x hself
    rw [get_lm_prior_dsr2lm]
    exact hself

/-- C4 witness: a concrete construction with two input variables and the
function set `["Add", "sin"]`; the table has length 4, index 1 carries the
TERMINAL id, and index 2 + 0 carries the id looked up for `pyLower "Add"`. -/
theorem alignment_table_invariants_witness :
    set_lib_to_lib [("TERMINAL", 0), ("add", 1), ("sin", 2)] ["Add", "sin"] 2 =
      Except.ok ([0, 0, 1, 2], [(0, 1), (1, 2), (2, 3)]) ∧
    ([0, 0, 1, 2] : List Nat).length = 2 + 2 ∧
    ([0, 0, 1, 2] : List Nat)[1]? = some 0 ∧
    ([0, 0, 1, 2] : List Nat)[2 + 0]? =
      List.lookup (pyLower "Add") [("TERMINAL", 0), ("add", 1), ("sin", 2)] := by
  have h : set_lib_to_lib [("TERMINAL", 0), ("add", 1), ("sin", 2)]
      ["Add", "sin"] 2 =
      Except.ok ([0, 0, 1, 2], [(0, 1), (1, 2), (2, 3)]) := by rfl
  have hm := alignment_table_invariants (R := ℚ) (S := Nat)
    [("TERMINAL", 0), ("add", 1), ("sin", 2)] ["Add", "sin"] 2
    [0, 0, 1, 2] [(0, 1), (1, 2), (2, 3)] 0 h (by rfl)
  exact ⟨h, hm.1, hm.2.1 1 (by omega), hm.2.2.1 0 "Add" (by rfl)⟩

/-- C6: a step call whose batch of previous token indices has a batch size
different from the batch size encoded in the currently held RecurrentState
returns StateShapeError; a step call with a matching batch size never
returns StateShapeError (the only other failure is a ConfigurationError
from a missing 'TERMINAL' entry). -/
theorem state_batch_enforcement {R S : Type} [Sub R] [Inhabited R]
    (m : SeqModel R S) (logNat : Nat → R) (self : LModel S) (x : List Nat)
    (s : S) (hs : self.next_state = some s) :
    (x.length ≠ m.stateBatchSize s →
      (get_lm_prior m logNat self x).1 =
        Except.error LMError.stateShapeError) ∧
    (x.length = m.stateBatchSize s →
      ∀ e, (get_lm_prior m logNat self x).1 = Except.error e →
        e ≠ LMError.stateShapeError) := by
  constructor
  · intro hne
    have hrun : sessRun m (List.map (fun i => self.dsr2lm.getD i 0) x)
        self.next_state = Except.error LMError.stateShapeError := by
      rw [hs, sessRun_some]
      rw [if_neg (by rw [List.length_map]; exact hne)]
    unfold get_lm_prior
    rw [hrun]
  · intro heq e he
    have hrun : sessRun m (List.map (fun i => self.dsr2lm.getD i 0) x)
        self.next_state =
        Except.ok (m.stepWarm (List.map (fun i => self.dsr2lm.getD i 0) x) s) := by
      rw [hs, sessRun_some]
      rw [if_pos (by rw [List.length_map]; exact heq)]
    unfold get_lm_prior at he
    rw [hrun] at he
    rcases hsw : m.stepWarm (List.map (fun i => self.dsr2lm.getD i 0) x) s
      with ⟨lg, ns⟩
    rw [hsw] at he
    obtain ⟨s', rfl, _⟩ := logit_to_prior_error_form logNat self.lm_token2idx
      self.prob_sharing self.dsr_n_input_var self.dsr2lm [lg] e he
    simp

/-- C6 witness: with a held state of batch size 1, a batch of size 2 raises
StateShapeError. -/
theorem state_batch_enforcement_witness :
    ({ testLModel with next_state := some 1 } : LModel Nat).next_state =
      some 1 ∧
    (get_lm_prior testModel (fun _ => (0 : ℚ))
        { testLModel with next_state := some 1 } [0, 0]).1 =
      Except.error LMError.stateShapeError := by
  have hm := state_batch_enforcement testModel (fun _ => (0 : ℚ))
    { testLModel with next_state := some 1 } [0, 0] 1 rfl
  exact ⟨rfl, hm.1 (by decide)⟩

/-- C7: the held recurrent state follows the EMPTY/WARM machine: it is
absent (None) after construction; a step in the EMPTY state feeds no state,
so the model runs from its own default initial state, and afterwards the
newly produced state is held; a step in the WARM state (matching batch
size) replaces the held state wholesale with the newly produced state, and
the state stays held. -/
theorem state_machine_empty_warm {R S : Type} [Sub R] [Inhabited R]
    (v : List (String × Nat)) (fs : List String) (n : Nat) (ps : PyVal)
    (self0 : LModel S) (h0 : initLModel v fs n ps = Except.ok self0)
    (m : SeqModel R S) (logNat : Nat → R) :
    self0.next_state = none ∧
    (∀ (self : LModel S) (x : List Nat), self.next_state = none →
      (get_lm_prior m logNat self x).2 =
        { self with
            next_state := some (m.stepFresh (x.map (fun i => self.dsr2lm.getD i 0))).2 }) ∧
    (∀ (self : LModel S) (s : S) (x : List Nat), self.next_state = some s →
      x.length = m.stateBatchSize s →
      (get_lm_prior m logNat self x).2 =
        { self with
            next_state := some (m.stepWarm (x.map (fun i => self.dsr2lm.getD i 0)) s).2 }) := by
  refine ⟨(initLModel_ok_fields v fs n ps self0 h0).1, ?_, ?_⟩
  · intro self x hempty
    unfold get_lm_prior
    rw [hempty]
    rw [sessRun_none]
  · intro self s x hwarm heq
    unfold get_lm_prior
    rw [hwarm]
    rw [sessRun_some, if_pos (by rw [List.length_map]; exact heq)]

/-- C7 witness: the concrete constructed instance holds no state, and one
step from EMPTY holds exactly the state produced by the fresh step (batch
size 1). -/
theorem state_machine_empty_warm_witness :
    testLModel.next_state = none ∧
    (get_lm_prior testModel (fun _ => (0 : ℚ)) testLModel [0]).2 =
      { testLModel with next_state := some 1 } := by
  have hm := state_machine_empty_warm (R := ℚ) (S := Nat)
    [("TERMINAL", 0), ("add", 1)] ["add"] 1 (PyVal.pybool true)
    testLModel (by rfl) testModel (fun _ => (0 : ℚ))
  refine ⟨hm.1, ?_⟩
  rw [hm.2.1 testLModel [0] rfl]
  rfl

/-- C8: resetting the episode and then stepping once with input `x` yields
output identical to a freshly constructed instance stepped once with `x`:
`get_lm_prior` only ever mutates `next_state`, so any instance evolved from
the fresh `self0` differs from it only in the held state, and resetting
discards exactly that state. -/
theorem episode_isolation {R S : Type} [Sub R] [Inhabited R]
    (v : List (String × Nat)) (fs : List String) (n : Nat) (ps : PyVal)
    (self0 : LModel S) (h0 : initLModel v fs n ps = Except.ok self0)
    (st : Option S) (m : SeqModel R S) (logNat : Nat → R) (x : List Nat) :
    get_lm_prior m logNat (resetEpisode { self0 with next_state := st }) x =
      get_lm_prior m logNat self0 x := by
  have h := (initLModel_ok_fields v fs n ps self0 h0).1
  have hr : resetEpisode { self0 with next_state := st } = self0 := by
    unfold resetEpisode
    cases self0
    simp only at h
    subst h
    rfl
  rw [hr]

/-- C8 witness: resetting a warmed-up copy of the concrete instance and
stepping equals stepping the fresh instance. -/
theorem episode_isolation_witness :
    get_lm_prior testModel (fun _ => (0 : ℚ))
        (resetEpisode { testLModel with next_state := some 5 }) [0] =
      get_lm_prior testModel (fun _ => (0 : ℚ)) testLModel [0] :=
  episode_isolation [("TERMINAL", 0), ("add", 1)] ["add"] 1
    (PyVal.pybool true) testLModel (by rfl) (some 5) testModel
    (fun _ => (0 : ℚ)) [0]

/-- C2: with sharing disabled (`prob_sharing` not the exact boolean True),
or with the TerminalGroup of size 1 (`dsr_n_input_var = 1`, so ln 1 = 0),
a successful step returns exactly the raw model logits gathered through the
alignment table, for every batch element. -/
theorem noop_sharing_raw_logits {S : Type} (m : SeqModel ℝ S)
    (self : LModel S) (x : List Nat) (lg : List (List ℝ)) (ns : S)
    (hrun : sessRun m (x.map (fun i => self.dsr2lm.getD i 0)) self.next_state
      = Except.ok (lg, ns))
    (hcase : self.prob_sharing ≠ PyVal.pybool true ∨
      (self.dsr_n_input_var = 1 ∧
        (List.lookup "TERMINAL" self.lm_token2idx).isSome)) :
    (get_lm_prior m (fun k => Real.log k) self x).1 =
      Except.ok (lg.map (fun row =>
        self.dsr2lm.map (fun mIdx => row.getD mIdx default))) := by
  rw [get_lm_prior_ok m _ self x lg ns hrun]
  rcases hcase with hps | ⟨hn, hts⟩
  · rw [logit_to_prior_nosharing _ _ _ _ _ _ hps]
    rfl
  · by_cases hps : self.prob_sharing = PyVal.pybool true
    · obtain ⟨tId, ht⟩ := Option.isSome_iff_exists.1 hts
      rw [hps, logit_to_prior_sharing _ _ _ _ _ _ ht, hn]
      have hlog : Real.log ((1 : Nat) : ℝ) = 0 := by simp
      rw [hlog]
      simp only [List.map_cons, List.map_nil, List.getD_cons_zero]
      rw [map_correctRow_zero]
    · rw [logit_to_prior_nosharing _ _ _ _ _ _ hps]
      rfl

/-- C2 witness: the concrete instance has sharing enabled with exactly one
input variable, and the prior equals the raw gathered logits. -/
theorem noop_sharing_raw_logits_witness :
    sessRun testModelR ([0].map (fun i => testLModel.dsr2lm.getD i 0))
        testLModel.next_state = Except.ok ([[7, 5, 3]], 1) ∧
    testLModel.dsr_n_input_var = 1 ∧
    (get_lm_prior testModelR (fun k => Real.log k) testLModel [0]).1 =
      Except.ok ([[(7 : ℝ), 5, 3]].map (fun row =>
        testLModel.dsr2lm.map (fun mIdx => row.getD mIdx default))) :=
  ⟨rfl, rfl,
    noop_sharing_raw_logits testModelR testLModel [0] [[7, 5, 3]] 1 rfl
      (Or.inr ⟨rfl, rfl⟩)⟩

/-- C9: the probability-sharing correction is applied iff the stored
`prob_sharing` value is the exact boolean True: any other value, in
particular the Python integer 1 (truthy in Python), leaves the raw logits
untouched because the guard `prob_sharing is True` is an identity
comparison, while the exact boolean True applies the TERMINAL column
correction. -/
theorem prob_sharing_identity_guard (v : List (String × Nat)) (tId n : Nat)
    (d : List Nat) (lg : List (List ℝ))
    (ht : List.lookup "TERMINAL" v = some tId) :
    (∀ ps : PyVal, ps ≠ PyVal.pybool true →
      logit_to_prior (fun k => Real.log k) v ps n d [lg] =
        Except.ok (lg.map (fun row =>
          d.map (fun mIdx => row.getD mIdx default)))) ∧
    (logit_to_prior (fun k => Real.log k) v (PyVal.pyint 1) n d [lg] =
      Except.ok (lg.map (fun row =>
        d.map (fun mIdx => row.getD mIdx default)))) ∧
    logit_to_prior (fun k => Real.log k) v (PyVal.pybool true) n d [lg] =
      Except.ok ((lg.map (correctRow tId (Real.log n))).map (fun row =>
        d.map (fun mIdx => row.getD mIdx default))) := by
  refine ⟨?_, ?_, ?_⟩
  · intro ps hps
    rw [logit_to_prior_nosharing _ _ _ _ _ _ hps]
    rfl
  · rw [logit_to_prior_nosharing _ _ _ _ _ _ (by decide)]
    rfl
  · rw [logit_to_prior_sharing _ _ _ _ _ _ ht]
    simp only [List.map_cons, List.map_nil, List.getD_cons_zero]

/-- C9 witness: over the concrete vocabulary, the integer 1 yields the raw
gather while the boolean True yields the corrected gather. -/
theorem prob_sharing_identity_guard_witness :
    List.lookup "TERMINAL" [("TERMINAL", 0), ("add", 1)] = some 0 ∧
    logit_to_prior (fun k => Real.log k) [("TERMINAL", 0), ("add", 1)]
        (PyVal.pyint 1) 1 [0, 1] [[[7, 5, 3]]] =
      Except.ok ([[(7 : ℝ), 5, 3]].map (fun row =>
        ([0, 1] : List Nat).map (fun mIdx => row.getD mIdx default))) ∧
    logit_to_prior (fun k => Real.log k) [("TERMINAL", 0), ("add", 1)]
        (PyVal.pybool true) 1 [0, 1] [[[7, 5, 3]]] =
      Except.ok (([[(7 : ℝ), 5, 3]].map
          (correctRow 0 (Real.log ((1 : Nat) : ℝ)))).map (fun row =>
        ([0, 1] : List Nat).map (fun mIdx => row.getD mIdx default))) := by
  have hm := prob_sharing_identity_guard [("TERMINAL", 0), ("add", 1)] 0 1
    [0, 1] [[(7 : ℝ), 5, 3]] rfl
  exact ⟨rfl, hm.2.1, hm.2.2⟩

/-- C1 counterexample: with one input variable and the function set
`["sin", "SIN"]`, search indices 1 and 2 form a TerminalGroup of size 2
sharing model id 1 (the id of "sin"); with sharing enabled and raw shared
logit 5, the computed prior entry for those indices is the raw 5, not
`5 - ln 2` as the claim requires for a group of size 2, and
`5 ≠ 5 - ln 2`. -/
theorem sharing_not_per_group_cex :
    set_lib_to_lib [("TERMINAL", 0), ("sin", 1)] ["sin", "SIN"] 1 =
      Except.ok ([0, 1, 1], [(0, 0), (1, 2)]) ∧
    logit_to_prior (fun k => Real.log k) [("TERMINAL", 0), ("sin", 1)]
        (PyVal.pybool true) 1 [0, 1, 1] [[[7, 5]]] =
      Except.ok [[7, 5, 5]] ∧
    (5 : ℝ) ≠ 5 - Real.log 2 := by
  refine ⟨by rfl, ?_, ?_⟩
  · rw [logit_to_prior_sharing _ _ _ _ _ _
      (show List.lookup "TERMINAL" [("TERMINAL", 0), ("sin", 1)] = some 0
        from rfl)]
    simp [correctRow, List.mapIdx_cons, Real.log_one]
  · have h2 : (0 : ℝ) < Real.log 2 := Real.log_pos (by norm_num)
    intro h
    linarith

/-- C1 amended: when sharing is enabled, the correction applies only to the
TERMINAL model id, subtracting `ln dsr_n_input_var` (the constructor
argument, not a per-group size): in a successful step, every prior entry
whose alignment id is the TERMINAL id — in particular the whole
input-variable TerminalGroup — equals the raw shared TERMINAL logit minus
`ln dsr_n_input_var`, the identical corrected value for all members; every
entry whose alignment id differs from the TERMINAL id receives the raw
logit at its own alignment id, so the PriorVector is assembled in
SearchVocabulary order. -/
theorem terminal_sharing_correction {S : Type} (m : SeqModel ℝ S)
    (self : LModel S) (x : List Nat) (lg : List (List ℝ)) (ns : S)
    (tId : Nat)
    (hps : self.prob_sharing = PyVal.pybool true)
    (ht : List.lookup "TERMINAL" self.lm_token2idx = some tId)
    (hrun : sessRun m (x.map (fun i => self.dsr2lm.getD i 0)) self.next_state
      = Except.ok (lg, ns))
    (prior : List (List ℝ))
    (hp : (get_lm_prior m (fun k => Real.log k) self x).1 =
      Except.ok prior) :
    (∀ (b : Nat) (row : List ℝ), lg[b]? = some row → tId < row.length →
      ∀ i : Nat, i < self.dsr2lm.length → self.dsr2lm.getD i 0 = tId →
        (prior.getD b []).getD i default =
          row.getD tId default - Real.log self.dsr_n_input_var) ∧
    (∀ (b : Nat) (row : List ℝ), lg[b]? = some row →
      ∀ i : Nat, i < self.dsr2lm.length → self.dsr2lm.getD i 0 ≠ tId →
        (prior.getD b []).getD i default =
          row.getD (self.dsr2lm.getD i 0) default) := by
  rw [get_lm_prior_ok m _ self x lg ns hrun, hps,
      logit_to_prior_sharing _ _ _ _ _ _ ht] at hp
  obtain rfl : _ = prior := Except.ok.inj hp
  simp only [List.map_cons, List.map_nil, List.getD_cons_zero]
  constructor
  · intro b row hb htb i hi hdi
    have hpb : ((lg.map
          (correctRow tId (Real.log (self.dsr_n_input_var : ℝ)))).map
          (fun row => self.dsr2lm.map (fun mIdx => row.getD mIdx default))).getD
          b [] =
        self.dsr2lm.map (fun mIdx =>
          (correctRow tId (Real.log (self.dsr_n_input_var : ℝ)) row).getD
            mIdx default) := by
      rw [List.getD_eq_getElem?_getD, List.getElem?_map, List.getElem?_map,
        hb]
      rfl
    rw [hpb, getD_map_lt self.dsr2lm 0 _ i hi, hdi]
    exact correctRow_getD_self tId _ row htb
  · intro b row hb i hi hdi
    have hpb : ((lg.map
          (correctRow tId (Real.log (self.dsr_n_input_var : ℝ)))).map
          (fun row => self.dsr2lm.map (fun mIdx => row.getD mIdx default))).getD
          b [] =
        self.dsr2lm.map (fun mIdx =>
          (correctRow tId (Real.log (self.dsr_n_input_var : ℝ)) row).getD
            mIdx default) := by
      rw [List.getD_eq_getElem?_getD, List.getElem?_map, List.getElem?_map,
        hb]
      rfl
    rw [hpb, getD_map_lt self.dsr2lm 0 _ i hi]
    exact correctRow_getD_ne tId _ row _ hdi

/-- C1 amended witness: with the concrete instance (one input variable,
sharing on), the prior entry for the input-variable index 0 equals the raw
TERMINAL logit 7 minus `ln 1`. -/
theorem terminal_sharing_correction_witness :
    testLModel.prob_sharing = PyVal.pybool true ∧
    ([[(7 : ℝ), 5, 3]] : List (List ℝ))[0]? = some [7, 5, 3] ∧
    (([[7 - Real.log ((1 : Nat) : ℝ), 5]] : List (List ℝ)).getD 0 []).getD
        0 default =
      ([7, 5, 3] : List ℝ).getD 0 default -
        Real.log (testLModel.dsr_n_input_var : ℝ) := by
  refine ⟨rfl, rfl, ?_⟩
  exact (terminal_sharing_correction testModelR testLModel [0] [[7, 5, 3]] 1
    0 rfl rfl rfl [[7 - Real.log ((1 : Nat) : ℝ), 5]] rfl).1 0 [7, 5, 3]
    rfl (by decide) 0 (by decide) rfl

/-- C3: for every batch of previous token indices with batch size at least
1 whose step succeeds, the returned prior has one row per batch element,
and every row has length `|SearchVocabulary| = dsr_n_input_var + |function
set|`; the adapter produces one logits row per batch element (its spec
shape) and the instance's alignment table comes from construction. -/
theorem prior_shape {S : Type} (m : SeqModel ℝ S)
    (v : List (String × Nat)) (fs : List String) (n : Nat) (ps : PyVal)
    (self0 : LModel S) (h0 : initLModel v fs n ps = Except.ok self0)
    (self : LModel S) (hd : self.dsr2lm = self0.dsr2lm)
    (x : List Nat) (hb : 1 ≤ x.length)
    (hshape : ∀ tokens : List Nat,
      (m.stepFresh tokens).1.length = tokens.length ∧
      ∀ s : S, (m.stepWarm tokens s).1.length = tokens.length)
    (prior : List (List ℝ))
    (hp : (get_lm_prior m (fun k => Real.log k) self x).1 =
      Except.ok prior) :
    prior.length = x.length ∧ ∀ row ∈ prior, row.length = n + fs.length := by
  cases hr : sessRun m (x.map (fun i => self.dsr2lm.getD i 0))
      self.next_state with
  | error e =>
      rw [get_lm_prior_raises m _ self x e hr] at hp
      exact absurd hp (by simp)
  | ok p =>
      obtain ⟨lg, ns⟩ := p
      rw [get_lm_prior_ok m _ self x lg ns hr] at hp
      have hlg : lg.length = x.length := by
        cases hst : self.next_state with
        | none =>
            rw [hst, sessRun_none] at hr
            have hfr : m.stepFresh (List.map (fun i => self.dsr2lm.getD i 0) x)
                = (lg, ns) := by simpa using hr
            have h1 := (hshape (List.map (fun i => self.dsr2lm.getD i 0) x)).1
            rw [hfr] at h1
            simpa using h1
        | some s =>
            rw [hst, sessRun_some] at hr
            by_cases hc : (List.map (fun i => self.dsr2lm.getD i 0) x).length
                = m.stateBatchSize s
            · rw [if_pos hc] at hr
              have hwr : m.stepWarm
                  (List.map (fun i => self.dsr2lm.getD i 0) x) s = (lg, ns) := by
                simpa using hr
              have h1 := (hshape
                (List.map (fun i => self.dsr2lm.getD i 0) x)).2 s
              rw [hwr] at h1
              simpa using h1
            · rw [if_neg hc] at hr
              exact absurd hr (by simp)
      have hdlen : self.dsr2lm.length = n + fs.length := by
        rw [hd]
        exact set_lib_to_lib_length v fs n _ _
          (initLModel_ok_fields v fs n ps self0 h0).2.2.2.2
      by_cases hps : self.prob_sharing = PyVal.pybool true
      · cases hk : List.lookup "TERMINAL" self.lm_token2idx with
        | none =>
            rw [hps] at hp
            unfold logit_to_prior at hp
            rw [if_pos rfl] at hp
            have hke : keyLookup self.lm_token2idx "TERMINAL" =
                Except.error (LMError.configurationError "TERMINAL") := by
              unfold keyLookup
              rw [hk]
            rw [hke] at hp
            exact absurd hp (by simp)
        | some tId =>
            rw [hps, logit_to_prior_sharing _ _ _ _ _ _ hk] at hp
            obtain rfl : _ = prior := Except.ok.inj hp
            simp only [List.map_cons, List.map_nil, List.getD_cons_zero]
            constructor
            · rw [List.length_map, List.length_map, hlg]
            · intro row hrow
              obtain ⟨row0, _, rfl⟩ := List.mem_map.1 hrow
              rw [List.length_map, hdlen]
      · rw [logit_to_prior_nosharing _ _ _ _ _ _ hps] at hp
        obtain rfl : _ = prior := Except.ok.inj hp
        simp only [List.getD_cons_zero]
        constructor
        · rw [List.length_map, hlg]
        · intro row hrow
          obtain ⟨row0, _, rfl⟩ := List.mem_map.1 hrow
          rw [List.length_map, hdlen]

/-- C3 witness: the concrete instance with batch `[0]` returns one row of
length `1 + 1`. -/
theorem prior_shape_witness :
    ([[7 - Real.log ((1 : Nat) : ℝ), 5]] : List (List ℝ)).length =
      ([0] : List Nat).length ∧
    ([7 - Real.log ((1 : Nat) : ℝ), 5] : List ℝ).length = 1 + 1 := by
  have hm := prior_shape testModelR [("TERMINAL", 0), ("add", 1)] ["add"] 1
    (PyVal.pybool true) testLModel rfl testLModel rfl [0] (by decide)
    (fun tokens => ⟨by simp [testModelR], fun s => by simp [testModelR]⟩)
    [[7 - Real.log ((1 : Nat) : ℝ), 5]] rfl
  exact ⟨hm.1, hm.2 _ (by simp)⟩

end LangModel
